import Mathlib

/-!
Shallow embedding of the `db` package of uoregon-libraries/headlights
(src/db/db.go), together with proofs about the catalog store
(categories / folders / real folders / files) and the durable archive-job
queue.

Modelling conventions:

* SQL tables are lists of records held in a `DBState`; rows appear in rowid
  (insertion) order.  `magicsql`'s `Save` on a record with id 0 inserts a new
  row whose id is one greater than the current maximum id; `Save` on a record
  with a nonzero id updates the row with that id.
* `time.Time` is modelled as a `Nat` (seconds); the zero value of `time.Time`
  is `0` and `time.Hour` is `3600`.  The two `time.Now()` calls inside one
  `ProcessArchiveJob` invocation are modelled by a single instant `now`.
* `net/mail.Address` is modelled by the string its `String()` method renders.
* Storage never fails in the model (`op.Operation.Err()` is always nil), so
  only the errors the Go code constructs itself (`fmt.Errorf`) appear, as
  `Except.error` with the source's message.
* In-memory convenience pointer fields (`Folder.Folder`, `Folder.Category`,
  `File.Category`, ...) are not persisted by magicsql and are omitted from the
  row records; `PopulateCategories` only fills such pointers and is a no-op on
  the persisted data, so `GetFilesByIDs` is modelled without it.
* `sort.Slice` with the source's strict `less` closure is modelled as a merge
  sort over the complementary non-strict comparison `fun a b => !(less b a)`.
* The `for len(ids) > 1000` loop of `GetFilesByIDs` is modelled with explicit
  fuel `ids.length`, which is an upper bound on the number of iterations.
-/

deriving instance DecidableEq for Except

namespace DB

/-- Category row (table `categories`): `type Category struct` with `ID`, `Name`. -/
structure Category where
  id : Nat
  name : String
  deriving DecidableEq, Repr

/-- Folder row (table `folders`): id, parent folder id (`FolderID`, 0 when the
folder has no parent), category id, depth, public path and name. -/
structure Folder where
  id : Nat
  folderID : Nat
  categoryID : Nat
  depth : Nat
  publicPath : String
  name : String
  deriving DecidableEq, Repr

/-- RealFolder row (table `real_folders`): id, owning logical folder id and
the physical full path. -/
structure RealFolder where
  id : Nat
  folderID : Nat
  fullPath : String
  deriving DecidableEq, Repr

/-- File row (table `files`): id, category id, parent folder id, depth, public
path and physical full path. -/
structure File where
  id : Nat
  categoryID : Nat
  folderID : Nat
  depth : Nat
  publicPath : String
  fullPath : String
  deriving DecidableEq, Repr

/-- ArchiveJob row (table `archive_jobs`): `CreatedAt`, `NextAttemptAt`,
delimiter-joined `Files` and `NotificationEmails`, and the `Processed` flag. -/
structure ArchiveJob where
  id : Nat
  createdAt : Nat
  nextAttemptAt : Nat
  files : String
  notificationEmails : String
  processed : Bool
  deriving DecidableEq, Repr

/-- An address from `net/mail`, modelled by its `String()` rendering. -/
structure EmailAddress where
  rendered : String
  deriving DecidableEq, Repr

/-- The persisted state: one list of rows per table, in rowid order. -/
structure DBState where
  categories : List Category
  folders : List Folder
  realFolders : List RealFolder
  files : List File
  jobs : List ArchiveJob
  deriving DecidableEq, Repr

/-- The empty database. -/
def emptyState : DBState :=
  { categories := [], folders := [], realFolders := [], files := [], jobs := [] }

/-- Id assigned by sqlite to a freshly inserted row: one more than the largest
existing id. -/
def nextRowID (ids : List Nat) : Nat := ids.foldr Nat.max 0 + 1

/-- Model of `time.Hour` (time is counted in seconds). -/
def hour : Nat := 3600

/-- Model of `strings.Count(path, string(os.PathSeparator))`. -/
def sepCount (path : String) : Nat := path.toList.countP (· == '/')

/-- Model of the file component of `filepath.Split(path)`: everything after
the final separator. -/
def baseName (path : String) : String := (path.splitOn "/").getLastD ""

/-- Go `FindCategoryByName`: first row of `categories` with the given name. -/
def FindCategoryByName (name : String) (st : DBState) : Option Category :=
  st.categories.find? (fun c => c.name == name)

/-- Go `FindOrCreateCategory`: look the category up by name and create it when
absent. -/
def FindOrCreateCategory (name : String) (st : DBState) : Category × DBState :=
  match FindCategoryByName name st with
  | some c => (c, st)
  | none =>
    let c : Category := { id := nextRowID (st.categories.map (·.id)), name := name }
    (c, { st with categories := st.categories ++ [c] })

/-- Go `FindFolderByPath`: first row of `folders` with the given category id
and public path. -/
def FindFolderByPath (c : Category) (path : String) (st : DBState) : Option Folder :=
  st.folders.find? (fun fo => fo.categoryID == c.id && fo.publicPath == path)

/-- The `parentFolderID` computation at the top of Go `FindOrCreateFolder`:
zero for a nil parent pointer, the parent's id otherwise. -/
def parentFolderID (f : Option Folder) : Nat :=
  match f with
  | none => 0
  | some ff => ff.id

/-- Go `FindOrCreateFolder`: find by (category, public path); an existing row
whose stored parent differs from the supplied parent is an error and nothing
is written; otherwise return the existing or freshly created row. -/
def FindOrCreateFolder (c : Category) (f : Option Folder) (path : String) (st : DBState) :
    Except String Folder × DBState :=
  let pid := parentFolderID f
  match FindFolderByPath c path st with
  | some folder =>
    if folder.folderID ≠ pid then
      (Except.error "existing record with different parent found", st)
    else
      (Except.ok folder, st)
  | none =>
    let newFolder : Folder :=
      { id := nextRowID (st.folders.map (·.id))
        folderID := pid
        categoryID := c.id
        depth := sepCount path
        publicPath := path
        name := baseName path }
    (Except.ok newFolder, { st with folders := st.folders ++ [newFolder] })

/-- Go `FindRealFolderByPath`: first row of `real_folders` with the given
folder id and full path.  The Go function dereferences its folder pointer, so
the folder argument is the non-nil case. -/
def FindRealFolderByPath (f : Folder) (path : String) (st : DBState) : Option RealFolder :=
  st.realFolders.find? (fun r => r.folderID == f.id && r.fullPath == path)

/-- Go `FindOrCreateRealFolder` for a non-nil folder pointer (a nil pointer
would crash inside `FindRealFolderByPath`, so callers always pass a folder;
the `fid` computation then yields `f.ID`). -/
def FindOrCreateRealFolder (f : Folder) (path : String) (st : DBState) :
    Except String RealFolder × DBState :=
  let fid := f.id
  match FindRealFolderByPath f path st with
  | some folder =>
    if folder.folderID ≠ fid then
      (Except.error "existing record with different folder found", st)
    else
      (Except.ok folder, st)
  | none =>
    let newFolder : RealFolder :=
      { id := nextRowID (st.realFolders.map (·.id))
        folderID := fid
        fullPath := path }
    (Except.ok newFolder, { st with realFolders := st.realFolders ++ [newFolder] })

/-- Go `appendFiles`: one `SELECT ... WHERE id IN (chunk)` returning, in table
order, each stored row whose id occurs in the chunk, appended to the
accumulator. -/
def appendFiles (st : DBState) (files : List File) (ids : List Nat) : List File :=
  files ++ st.files.filter (fun f => ids.contains f.id)

/-- The `for len(ids) > 1000` loop of Go `GetFilesByIDs`, with explicit fuel;
each iteration fetches the first 1000 ids and drops them.  `GetFilesByIDs`
supplies fuel `ids.length`, an upper bound on the iteration count. -/
def fetchFileChunks (st : DBState) : Nat → List File → List Nat → List File
  | fuel + 1, files, ids =>
    if ids.length > 1000 then
      fetchFileChunks st fuel (appendFiles st files (ids.take 1000)) (ids.drop 1000)
    else if ids.length > 0 then
      appendFiles st files ids
    else
      files
  | 0, files, ids =>
    if ids.length > 0 then
      appendFiles st files ids
    else
      files

/-- Model of `strings.ToLower`, as the character list of the string. -/
def lowerChars (s : String) : List Char := s.toList.map Char.toLower

/-- Go's `<` on strings: lexicographic byte-wise comparison, which on UTF-8
data coincides with lexicographic comparison of the character sequences. -/
def charsLess : List Char → List Char → Bool
  | [], [] => false
  | [], _ :: _ => true
  | _ :: _, [] => false
  | x :: xs, y :: ys =>
    if x < y then true
    else if y < x then false
    else charsLess xs ys

/-- The strict comparison closure passed to `sort.Slice` in Go
`GetFilesByIDs`: by depth first, then by `strings.ToLower` of the public
path. -/
def fileLess (a b : File) : Bool :=
  if a.depth != b.depth then
    decide (a.depth < b.depth)
  else
    charsLess (lowerChars a.publicPath) (lowerChars b.publicPath)

/-- The non-strict comparison induced by `fileLess`, used to run the model's
stable sort. -/
def fileLE (a b : File) : Bool := !(fileLess b a)

/-- The `fileLE` comparison as a relation, for `List.insertionSort`. -/
def fileOrder (a b : File) : Prop := fileLE a b = true

instance : DecidableRel fileOrder :=
  fun a b => inferInstanceAs (Decidable (fileLE a b = true))

/-- Go `GetFilesByIDs`: fetch in chunks of at most 1000 ids, then sort by the
`fileLess` closure.  `sort.Slice` is modelled by a stable structural sort
consistent with `fileLess` (Go itself runs a stable insertion sort on slices
of the sizes appearing below).  `PopulateCategories` only fills in-memory
category pointers, which the row model does not carry. -/
def GetFilesByIDs (st : DBState) (ids : List Nat) : List File :=
  (fetchFileChunks st ids.length [] ids).insertionSort fileOrder

/-- Go `QueueArchiveJob`: reject an empty file or address list, otherwise
insert one job row.  The Go struct literal sets `CreatedAt` but not
`NextAttemptAt`, so the latter is stored as the `time.Time` zero value. -/
def QueueArchiveJob (now : Nat) (addrs : List EmailAddress) (files : List File)
    (st : DBState) : Except String Unit × DBState :=
  if files.length == 0 then
    (Except.error "no files to archive", st)
  else if addrs.length == 0 then
    (Except.error "no notification addresses for archive job", st)
  else
    let filePaths := files.map (·.fullPath)
    let emails := addrs.map (·.rendered)
    let job : ArchiveJob :=
      { id := nextRowID (st.jobs.map (·.id))
        createdAt := now
        nextAttemptAt := 0
        files := String.intercalate "\x1E" filePaths
        notificationEmails := String.intercalate "," emails
        processed := false }
    (Except.ok (), { st with jobs := st.jobs ++ [job] })

/-- The `WHERE next_attempt_at < ? AND processed = ?` predicate of Go
`ProcessArchiveJob` (note the strict comparison). -/
def jobReady (now : Nat) (j : ArchiveJob) : Bool :=
  decide (j.nextAttemptAt < now) && !j.processed

/-- Creation-time ordering of archive jobs, for `ORDER BY created_at ASC`. -/
def jobOrder (a b : ArchiveJob) : Prop := a.createdAt ≤ b.createdAt

instance : DecidableRel jobOrder :=
  fun a b => inferInstanceAs (Decidable (a.createdAt ≤ b.createdAt))

/-- The rows `ORDER BY created_at ASC` would present to `LIMIT 1`: the ready
rows sorted by creation time, ties in rowid order (stable sort over table
order). -/
def readyJobsOrdered (now : Nat) (st : DBState) : List ArchiveJob :=
  (st.jobs.filter (jobReady now)).insertionSort jobOrder

/-- Go `ProcessArchiveJob`: take the first ready job (if none, do nothing and
succeed); run the callback on it; on success set `Processed`, on failure push
`NextAttemptAt` an hour out; save the row.  The first component records the
job the callback was invoked with. -/
def ProcessArchiveJob (now : Nat) (cb : ArchiveJob → Bool) (st : DBState) :
    Option ArchiveJob × DBState :=
  match readyJobsOrdered now st with
  | [] => (none, st)
  | j :: _ =>
    let saved :=
      if cb j then { j with processed := true }
      else { j with nextAttemptAt := now + hour }
    (some j, { st with jobs := st.jobs.map (fun x => if x.id == j.id then saved else x) })

/-- Modelled from the spec: whether a row's public path lies in the subtree
under the given root folder (`TreeMode(true)` descendant scoping; the
`FileSelect`/`FolderSelect` helpers are not among the provided sources). -/
def inSubtree (root : Option Folder) (path : String) : Bool :=
  match root with
  | none => true
  | some f => path.startsWith (f.publicPath ++ "/")

/-- Modelled from the spec: the `LIKE ?` match, "matching term as a
substring". -/
def strContains (s t : String) : Bool := t == "" || (s.splitOn t).length > 1

/-- Modelled from the spec: Go `SearchFiles`.  `FileSelect` and the magicsql
`Search`/`Limit`/`AllObjects` combination are not among the provided sources;
per the spec the call returns the capped slice of matching descendant rows
together with the total match count, which is decoupled from the limit. -/
def SearchFiles (c : Category) (folder : Option Folder) (term : String) (limit : Nat)
    (st : DBState) : List File × Nat :=
  let matching := st.files.filter
    (fun f => f.categoryID == c.id && inSubtree folder f.publicPath
      && strContains f.publicPath term)
  (matching.take limit, matching.length)

/-- Modelled from the spec: Go `SearchFolders`, like `SearchFiles` but
matching the term against folder names. -/
def SearchFolders (c : Category) (folder : Option Folder) (term : String) (limit : Nat)
    (st : DBState) : List Folder × Nat :=
  let matching := st.folders.filter
    (fun fo => fo.categoryID == c.id && inSubtree folder fo.publicPath
      && strContains fo.name term)
  (matching.take limit, matching.length)

/-! Concrete rows and states used by counterexamples and witnesses. -/

/-- A stored file whose sort key ties with `exFileB` (same depth, same
lowercased path). -/
def exFileA : File :=
  { id := 1, categoryID := 1, folderID := 0, depth := 0, publicPath := "x", fullPath := "/r/x" }

/-- A second stored file, distinct from `exFileA` but with the same
(depth, lowercased path) sort key. -/
def exFileB : File :=
  { id := 2, categoryID := 1, folderID := 0, depth := 0, publicPath := "X", fullPath := "/r/X" }

/-- A database holding exactly `exFileA` and `exFileB`. -/
def exFilesSt : DBState := { emptyState with files := [exFileA, exFileB] }

/-- 1001 distinct ids: id 1 falls in the first query chunk and id 2 in the
second, so reversing the list swaps which chunk fetches which file. -/
def exIds : List Nat := 1 :: ((List.range 999).map (· + 3)) ++ [2]

/-- An unprocessed archive job created at time 1 and due at time 5. -/
def exJob : ArchiveJob :=
  { id := 1, createdAt := 1, nextAttemptAt := 5, files := "f", notificationEmails := "e",
    processed := false }

/-- A queue holding exactly `exJob`. -/
def exJobSt : DBState := { emptyState with jobs := [exJob] }

/-- A notification address. -/
def exAddr : EmailAddress := { rendered := "User <u@example.com>" }

/-- A category row. -/
def exCat : Category := { id := 1, name := "c" }

/-- A folder stored at public path `p` with no parent (sentinel 0). -/
def exFolderP : Folder :=
  { id := 1, folderID := 0, categoryID := 1, depth := 0, publicPath := "p", name := "p" }

/-- A catalog holding exactly `exFolderP`. -/
def exFolderSt : DBState := { emptyState with folders := [exFolderP] }

/-- A folder object whose id is 0, as distinct from a nil folder pointer. -/
def exZeroFolder : Folder :=
  { id := 0, folderID := 0, categoryID := 1, depth := 0, publicPath := "zzz", name := "zzz" }

/-- A folder with a nonzero id, used as a conflicting parent. -/
def exParent : Folder :=
  { id := 7, folderID := 0, categoryID := 1, depth := 0, publicPath := "q", name := "q" }

/-- A real folder stored under logical folder 1. -/
def exRealF : RealFolder := { id := 1, folderID := 1, fullPath := "/r/p" }

/-- A catalog holding exactly `exRealF`. -/
def exRealSt : DBState := { emptyState with realFolders := [exRealF] }

/-- A folder with id 2, not the owner of `exRealF`. -/
def exFolder2 : Folder :=
  { id := 2, folderID := 0, categoryID := 1, depth := 0, publicPath := "r", name := "r" }

end DB

namespace DB

/-! Helper lemmas about the archive-job queue. -/

theorem jobReady_iff (now : Nat) (j : ArchiveJob) :
    jobReady now j = true ↔ j.nextAttemptAt < now ∧ j.processed = false := by
  simp [jobReady]

theorem readyJobsOrdered_perm (now : Nat) (st : DBState) :
    (readyJobsOrdered now st).Perm (st.jobs.filter (jobReady now)) :=
  List.perm_insertionSort _ _

theorem readyJobsOrdered_sorted (now : Nat) (st : DBState) :
    List.Sorted jobOrder (readyJobsOrdered now st) :=
  @List.sorted_insertionSort _ jobOrder _
    ⟨fun a b => Nat.le_total a.createdAt b.createdAt⟩
    ⟨fun _ _ _ hab hbc => Nat.le_trans hab hbc⟩ _

/-- C1 (amended: eligibility is the strict comparison `nextAttemptAt < now`).
If no stored job is unprocessed and strictly past its next-attempt time, the
callback is not invoked and the call succeeds leaving the state unchanged; if
some job is, the callback is invoked with exactly one job, an eligible one of
minimal creation time. -/
theorem processArchiveJob_fifo (now : Nat) (cb : ArchiveJob → Bool) (st : DBState) :
    ((∀ j ∈ st.jobs, j.processed = true ∨ now ≤ j.nextAttemptAt) →
      ProcessArchiveJob now cb st = (none, st)) ∧
    ((∃ j ∈ st.jobs, j.processed = false ∧ j.nextAttemptAt < now) →
      ∃ j, (ProcessArchiveJob now cb st).1 = some j ∧ j ∈ st.jobs ∧ j.processed = false ∧
        j.nextAttemptAt < now ∧
        ∀ k ∈ st.jobs, k.processed = false → k.nextAttemptAt < now →
          j.createdAt ≤ k.createdAt) := by
  constructor
  · intro h
    have hfil : st.jobs.filter (jobReady now) = [] := by
      apply List.filter_eq_nil_iff.mpr
      intro j hj
      rcases h j hj with hp | hn
      · simp [jobReady_iff, hp]
      · simp [jobReady_iff]
        omega
    have hnil : readyJobsOrdered now st = [] := by
      rw [readyJobsOrdered, hfil]
      rfl
    simp [ProcessArchiveJob, hnil]
  · rintro ⟨j₀, hj₀, hp₀, hn₀⟩
    have hj₀f : j₀ ∈ st.jobs.filter (jobReady now) :=
      List.mem_filter.mpr ⟨hj₀, (jobReady_iff now j₀).mpr ⟨hn₀, hp₀⟩⟩
    have hmem : j₀ ∈ readyJobsOrdered now st :=
      ((readyJobsOrdered_perm now st).mem_iff).mpr hj₀f
    rcases hr : readyJobsOrdered now st with _ | ⟨j, rest⟩
    · rw [hr] at hmem
      simp at hmem
    · have hjf : j ∈ st.jobs.filter (jobReady now) :=
        ((readyJobsOrdered_perm now st).mem_iff).mp (by rw [hr]; exact List.mem_cons_self _ _)
      have hjmem := (List.mem_filter.mp hjf).1
      have hjready := (jobReady_iff now j).mp (List.mem_filter.mp hjf).2
      refine ⟨j, ?_, hjmem, hjready.2, hjready.1, ?_⟩
      · simp [ProcessArchiveJob, hr]
      · intro k hk hkp hkn
        have hkf : k ∈ st.jobs.filter (jobReady now) :=
          List.mem_filter.mpr ⟨hk, (jobReady_iff now k).mpr ⟨hkn, hkp⟩⟩
        have hkmem : k ∈ readyJobsOrdered now st :=
          ((readyJobsOrdered_perm now st).mem_iff).mpr hkf
        rw [hr] at hkmem
        rcases List.mem_cons.mp hkmem with rfl | hkrest
        · exact Nat.le_refl _
        · have hsorted := readyJobsOrdered_sorted now st
          rw [hr] at hsorted
          exact (List.pairwise_cons.mp hsorted).1 k hkrest

/-- C1 counterexample: at a call time exactly equal to a job's nextAttemptAt
the claim counts the job eligible, but the code's strict comparison skips it
and the callback is not invoked. -/
theorem processArchiveJob_boundary_cx :
    (∃ j ∈ exJobSt.jobs, j.processed = false ∧ j.nextAttemptAt ≤ 5) ∧
    ProcessArchiveJob 5 (fun _ => true) exJobSt = (none, exJobSt) := by
  decide

/-- C1 witness: at time 6 the job due at 5 is claimed. -/
theorem processArchiveJob_fifo_witness :
    ∃ j, (ProcessArchiveJob 6 (fun _ => true) exJobSt).1 = some j ∧ j ∈ exJobSt.jobs ∧
      j.processed = false ∧ j.nextAttemptAt < 6 ∧
      ∀ k ∈ exJobSt.jobs, k.processed = false → k.nextAttemptAt < 6 →
        j.createdAt ≤ k.createdAt :=
  (processArchiveJob_fifo 6 (fun _ => true) exJobSt).2 (by decide)

end DB

namespace DB

/-- Any job the callback is invoked with is a stored, unprocessed, strictly
due job. -/
theorem claimedJob_spec (now : Nat) (cb : ArchiveJob → Bool) (st : DBState)
    (j : ArchiveJob) (h : (ProcessArchiveJob now cb st).1 = some j) :
    j ∈ st.jobs ∧ j.processed = false ∧ j.nextAttemptAt < now := by
  rcases hr : readyJobsOrdered now st with _ | ⟨j', rest⟩
  · simp [ProcessArchiveJob, hr] at h
  · have hj : j' = j := by
      simpa [ProcessArchiveJob, hr] using h
    subst hj
    have hjf : j' ∈ st.jobs.filter (jobReady now) :=
      ((readyJobsOrdered_perm now st).mem_iff).mp (by rw [hr]; exact List.mem_cons_self _ _)
    have hready := (jobReady_iff now j').mp (List.mem_filter.mp hjf).2
    exact ⟨(List.mem_filter.mp hjf).1, hready.2, hready.1⟩

/-- The saved row written back by `ProcessArchiveJob` for claimed job `j`. -/
theorem processArchiveJob_state (now : Nat) (cb : ArchiveJob → Bool) (st : DBState)
    (j : ArchiveJob) (h : (ProcessArchiveJob now cb st).1 = some j) :
    (ProcessArchiveJob now cb st).2.jobs =
      st.jobs.map (fun x => if x.id == j.id then
        (if cb j then { j with processed := true }
         else { j with nextAttemptAt := now + hour }) else x) := by
  rcases hr : readyJobsOrdered now st with _ | ⟨j', rest⟩
  · simp [ProcessArchiveJob, hr] at h
  · have hj : j' = j := by
      simpa [ProcessArchiveJob, hr] using h
    subst hj
    simp [ProcessArchiveJob, hr]

/-- C3: a claimed job is stored and unprocessed; exactly its row is rewritten
and the row count is unchanged (retained, not deleted); on callback success
the row is saved with processed = true, on callback failure with
nextAttemptAt pushed one hour out and processed still false (the call itself
succeeding either way); a job whose stored rows are all processed is never
claimed by any later call, and processing preserves that property. -/
theorem processArchiveJob_outcome (now : Nat) (cb : ArchiveJob → Bool) (st : DBState)
    (j : ArchiveJob) (h : (ProcessArchiveJob now cb st).1 = some j) :
    (j ∈ st.jobs ∧ j.processed = false) ∧
    (ProcessArchiveJob now cb st).2.jobs.length = st.jobs.length ∧
    (∃ k ∈ (ProcessArchiveJob now cb st).2.jobs, k.id = j.id) ∧
    (∀ k ∈ st.jobs, k.id ≠ j.id → k ∈ (ProcessArchiveJob now cb st).2.jobs) ∧
    (cb j = true → ∀ k ∈ (ProcessArchiveJob now cb st).2.jobs, k.id = j.id →
      k = { j with processed := true }) ∧
    (cb j = false → ∀ k ∈ (ProcessArchiveJob now cb st).2.jobs, k.id = j.id →
      k = { j with nextAttemptAt := now + hour }) ∧
    (∀ (st₂ : DBState) (now₂ : Nat) (cb₂ : ArchiveJob → Bool) (k : ArchiveJob),
      (ProcessArchiveJob now₂ cb₂ st₂).1 = some k → k ∈ st₂.jobs ∧ k.processed = false) ∧
    (∀ (st₂ : DBState) (now₂ : Nat) (cb₂ : ArchiveJob → Bool) (i : Nat),
      (∀ k ∈ st₂.jobs, k.id = i → k.processed = true) →
      ∀ k ∈ (ProcessArchiveJob now₂ cb₂ st₂).2.jobs, k.id = i → k.processed = true) := by
  have hclaim := claimedJob_spec now cb st j h
  have hstate := processArchiveJob_state now cb st j h
  refine ⟨⟨hclaim.1, hclaim.2.1⟩, ?_, ?_, ?_, ?_, ?_, ?_, ?_⟩
  · rw [hstate]; exact List.length_map _ _
  · refine ⟨if cb j then { j with processed := true }
      else { j with nextAttemptAt := now + hour }, ?_, ?_⟩
    · rw [hstate]
      refine List.mem_map.mpr ⟨j, hclaim.1, ?_⟩
      simp
    · by_cases hcb : cb j <;> simp [hcb]
  · intro k hk hkid
    rw [hstate]
    refine List.mem_map.mpr ⟨k, hk, ?_⟩
    simp [hkid]
  · intro hcb k hk hkid
    rw [hstate] at hk
    rcases List.mem_map.mp hk with ⟨x, hx, hfx⟩
    by_cases hxid : x.id = j.id
    · simp [hxid, hcb] at hfx
      exact hfx.symm
    · simp [hxid] at hfx
      subst hfx
      exact absurd hkid hxid
  · intro hcb k hk hkid
    rw [hstate] at hk
    rcases List.mem_map.mp hk with ⟨x, hx, hfx⟩
    by_cases hxid : x.id = j.id
    · simp [hxid, hcb] at hfx
      exact hfx.symm
    · simp [hxid] at hfx
      subst hfx
      exact absurd hkid hxid
  · intro st₂ now₂ cb₂ k hk
    have := claimedJob_spec now₂ cb₂ st₂ k hk
    exact ⟨this.1, this.2.1⟩
  · intro st₂ now₂ cb₂ i hall k hk hkid
    rcases hc : (ProcessArchiveJob now₂ cb₂ st₂).1 with _ | j₂
    · have : (ProcessArchiveJob now₂ cb₂ st₂).2 = st₂ := by
        rcases hr : readyJobsOrdered now₂ st₂ with _ | ⟨a, rest⟩
        · simp [ProcessArchiveJob, hr]
        · simp [ProcessArchiveJob, hr] at hc
      rw [this] at hk
      exact hall k hk hkid
    · have hclaim₂ := claimedJob_spec now₂ cb₂ st₂ j₂ hc
      have hstate₂ := processArchiveJob_state now₂ cb₂ st₂ j₂ hc
      rw [hstate₂] at hk
      rcases List.mem_map.mp hk with ⟨x, hx, hfx⟩
      by_cases hxid : x.id = j₂.id
      · have hsaved : (if cb₂ j₂ then { j₂ with processed := true }
            else { j₂ with nextAttemptAt := now₂ + hour }) = k := by
          simpa [hxid] using hfx
        have hji : j₂.id = i := by
          rw [← hsaved] at hkid
          by_cases hcb₂ : cb₂ j₂ <;> simpa [hcb₂] using hkid
        exact absurd (hall j₂ hclaim₂.1 hji) (by simp [hclaim₂.2.1])
      · simp [hxid] at hfx
        subst hfx
        exact hall x hx hkid

end DB

namespace DB

/-- C3 witness: the job due at 5 claimed at time 6 with an always-true
callback. -/
theorem processArchiveJob_outcome_witness :
    (exJob ∈ exJobSt.jobs ∧ exJob.processed = false) ∧
    (ProcessArchiveJob 6 (fun _ => true) exJobSt).2.jobs.length = exJobSt.jobs.length ∧
    (∃ k ∈ (ProcessArchiveJob 6 (fun _ => true) exJobSt).2.jobs, k.id = exJob.id) ∧
    (∀ k ∈ exJobSt.jobs, k.id ≠ exJob.id →
      k ∈ (ProcessArchiveJob 6 (fun _ => true) exJobSt).2.jobs) ∧
    ((true : Bool) = true →
      ∀ k ∈ (ProcessArchiveJob 6 (fun _ => true) exJobSt).2.jobs, k.id = exJob.id →
        k = { exJob with processed := true }) ∧
    ((true : Bool) = false →
      ∀ k ∈ (ProcessArchiveJob 6 (fun _ => true) exJobSt).2.jobs, k.id = exJob.id →
        k = { exJob with nextAttemptAt := 6 + hour }) ∧
    (∀ (st₂ : DBState) (now₂ : Nat) (cb₂ : ArchiveJob → Bool) (k : ArchiveJob),
      (ProcessArchiveJob now₂ cb₂ st₂).1 = some k → k ∈ st₂.jobs ∧ k.processed = false) ∧
    (∀ (st₂ : DBState) (now₂ : Nat) (cb₂ : ArchiveJob → Bool) (i : Nat),
      (∀ k ∈ st₂.jobs, k.id = i → k.processed = true) →
      ∀ k ∈ (ProcessArchiveJob now₂ cb₂ st₂).2.jobs, k.id = i → k.processed = true) :=
  processArchiveJob_outcome 6 (fun _ => true) exJobSt exJob (by decide)

end DB

namespace DB

/-- C2 (amended): a valid enqueue persists exactly one new job with
createdAt = now, processed = false, the delimiter-joined ordered file paths
and address strings — but nextAttemptAt is stored as the time zero value (the
Go struct literal never sets it), which precedes any positive now, so the job
is immediately eligible. -/
theorem queueArchiveJob_inserts (now : Nat) (addrs : List EmailAddress) (files : List File)
    (st : DBState) (hf : files ≠ []) (ha : addrs ≠ []) :
    ∃ j, QueueArchiveJob now addrs files st =
        (Except.ok (), { st with jobs := st.jobs ++ [j] }) ∧
      j.createdAt = now ∧ j.nextAttemptAt = 0 ∧ j.processed = false ∧
      j.files = String.intercalate "\x1E" (files.map (·.fullPath)) ∧
      j.notificationEmails = String.intercalate "," (addrs.map (·.rendered)) ∧
      (0 < now → j.nextAttemptAt < now) := by
  rcases files with _ | ⟨f₀, fs⟩
  · exact absurd rfl hf
  rcases addrs with _ | ⟨a₀, as⟩
  · exact absurd rfl ha
  refine ⟨_, rfl, rfl, rfl, rfl, rfl, rfl, fun h => h⟩

/-- C2 counterexample: a valid enqueue at time 10 stores a job whose
nextAttemptAt is not 10 (it is the time zero value). -/
theorem queueArchiveJob_now_cx :
    (QueueArchiveJob 10 [exAddr] [exFileA] emptyState).1 = Except.ok () ∧
    ∃ j, (QueueArchiveJob 10 [exAddr] [exFileA] emptyState).2.jobs = [j] ∧
      j.createdAt = 10 ∧ j.nextAttemptAt ≠ 10 := by
  refine ⟨rfl, _, rfl, by decide, by decide⟩

/-- C2 witness: enqueueing one file to one address at time 10. -/
theorem queueArchiveJob_inserts_witness :
    ∃ j, QueueArchiveJob 10 [exAddr] [exFileA] emptyState =
        (Except.ok (), { emptyState with jobs := emptyState.jobs ++ [j] }) ∧
      j.createdAt = 10 ∧ j.nextAttemptAt = 0 ∧ j.processed = false ∧
      j.files = String.intercalate "\x1E" ([exFileA].map (·.fullPath)) ∧
      j.notificationEmails = String.intercalate "," ([exAddr].map (·.rendered)) ∧
      (0 < 10 → j.nextAttemptAt < 10) :=
  queueArchiveJob_inserts 10 [exAddr] [exFileA] emptyState (by decide) (by decide)

/-- C7: enqueueing with an empty file list or an empty address list fails
with the corresponding validation error and writes nothing — the state
component of the result is the unchanged input state. -/
theorem queueArchiveJob_validates (now : Nat) (addrs : List EmailAddress) (files : List File)
    (st : DBState) :
    (files = [] → QueueArchiveJob now addrs files st =
      (Except.error "no files to archive", st)) ∧
    (files ≠ [] → addrs = [] → QueueArchiveJob now addrs files st =
      (Except.error "no notification addresses for archive job", st)) := by
  constructor
  · rintro rfl
    rfl
  · intro hf
    rintro rfl
    rcases files with _ | ⟨f₀, fs⟩
    · exact absurd rfl hf
    · rfl

/-- C7 witness: both empty-list rejections at concrete inputs. -/
theorem queueArchiveJob_validates_witness :
    QueueArchiveJob 3 [exAddr] [] emptyState =
      (Except.error "no files to archive", emptyState) ∧
    QueueArchiveJob 3 [] [exFileA] emptyState =
      (Except.error "no notification addresses for archive job", emptyState) :=
  ⟨(queueArchiveJob_validates 3 [exAddr] [] emptyState).1 rfl,
   (queueArchiveJob_validates 3 [] [exFileA] emptyState).2 (by decide) rfl⟩

end DB

namespace DB

/-- C4 (amended): for folders the claim holds — a stored row at the same
(category, publicPath) with a different stored parent makes the call fail
with the integrity error and the state is returned unchanged.  For real
folders the lookup key includes the supplied folder's id, so a row stored
under a different folder is never found and no integrity error occurs: any
found row matches the supplied folder (the mismatch branch is unreachable),
and the call instead creates a second row for the same fullPath under the
supplied folder, leaving existing rows unchanged. -/
theorem findOrCreate_conflict (c : Category) (f : Option Folder) (path : String)
    (st : DBState) :
    (∀ fo, FindFolderByPath c path st = some fo → fo.folderID ≠ parentFolderID f →
      FindOrCreateFolder c f path st =
        (Except.error "existing record with different parent found", st)) ∧
    (∀ (g : Folder) (rf : RealFolder), FindRealFolderByPath g path st = some rf →
      rf.folderID = g.id) ∧
    (∀ (g : Folder), FindRealFolderByPath g path st = none →
      FindOrCreateRealFolder g path st =
        (Except.ok
            { id := nextRowID (st.realFolders.map (·.id))
              folderID := g.id
              fullPath := path },
          { st with realFolders := st.realFolders ++
            [{ id := nextRowID (st.realFolders.map (·.id))
               folderID := g.id
               fullPath := path }] })) := by
  refine ⟨?_, ?_, ?_⟩
  · intro fo hfo hne
    simp [FindOrCreateFolder, hfo, hne]
  · intro g rf hrf
    have hrf' : st.realFolders.find? (fun r => r.folderID == g.id && r.fullPath == path)
        = some rf := hrf
    have h := List.find?_some hrf'
    simp at h
    exact h.1
  · intro g hnone
    simp [FindOrCreateRealFolder, hnone]

/-- C4 counterexample: a real folder stored at fullPath `/r/p` under folder 1;
find-or-create for the same fullPath under folder 2 does not fail — it
returns ok and inserts a second row for the same physical path. -/
theorem findOrCreateRealFolder_conflict_cx :
    exRealF ∈ exRealSt.realFolders ∧ exRealF.fullPath = "/r/p" ∧
    exRealF.folderID ≠ exFolder2.id ∧
    (FindOrCreateRealFolder exFolder2 "/r/p" exRealSt).1 =
      Except.ok { id := 2, folderID := 2, fullPath := "/r/p" } ∧
    (FindOrCreateRealFolder exFolder2 "/r/p" exRealSt).2.realFolders.length = 2 := by
  decide

/-- C4 witness: folder conflict at concrete inputs (stored parent 0, supplied
parent id 7), and the real-folder create path under a folder the stored row
does not belong to. -/
theorem findOrCreate_conflict_witness :
    FindOrCreateFolder exCat (some exParent) "p" exFolderSt =
      (Except.error "existing record with different parent found", exFolderSt) ∧
    FindOrCreateRealFolder exFolder2 "/r/p" exRealSt =
      (Except.ok { id := 2, folderID := 2, fullPath := "/r/p" },
        { exRealSt with realFolders := exRealSt.realFolders ++
          [{ id := 2, folderID := 2, fullPath := "/r/p" }] }) :=
  ⟨(findOrCreate_conflict exCat (some exParent) "p" exFolderSt).1 exFolderP (by decide)
      (by decide),
   (findOrCreate_conflict exCat (some exParent) "/r/p" exRealSt).2.2 exFolder2 (by decide)⟩

end DB

namespace DB

/-- Looking a category up after appending a row with the looked-up name finds
that row (when the original lookup found nothing). -/
theorem findCategoryByName_append (name : String) (st : DBState) (c : Category)
    (h : FindCategoryByName name st = none) (hn : c.name = name) :
    FindCategoryByName name { st with categories := st.categories ++ [c] } = some c := by
  have h' : st.categories.find? (fun x => x.name == name) = none := h
  show (st.categories ++ [c]).find? (fun x => x.name == name) = some c
  rw [List.find?_append, h']
  simp [hn]

/-- Looking a folder up after appending a row with the looked-up key finds
that row (when the original lookup found nothing). -/
theorem findFolderByPath_append (c : Category) (path : String) (st : DBState) (fo : Folder)
    (h : FindFolderByPath c path st = none) (hc : fo.categoryID = c.id)
    (hp : fo.publicPath = path) :
    FindFolderByPath c path { st with folders := st.folders ++ [fo] } = some fo := by
  have h' : st.folders.find? (fun x => x.categoryID == c.id && x.publicPath == path) = none := h
  show (st.folders ++ [fo]).find? (fun x => x.categoryID == c.id && x.publicPath == path)
    = some fo
  rw [List.find?_append, h']
  simp [hc, hp]

/-- Looking a real folder up after appending a row with the looked-up key
finds that row (when the original lookup found nothing). -/
theorem findRealFolderByPath_append (g : Folder) (path : String) (st : DBState)
    (rf : RealFolder) (h : FindRealFolderByPath g path st = none) (hg : rf.folderID = g.id)
    (hp : rf.fullPath = path) :
    FindRealFolderByPath g path { st with realFolders := st.realFolders ++ [rf] }
      = some rf := by
  have h' : st.realFolders.find? (fun x => x.folderID == g.id && x.fullPath == path)
      = none := h
  show (st.realFolders ++ [rf]).find? (fun x => x.folderID == g.id && x.fullPath == path)
    = some rf
  rw [List.find?_append, h']
  simp [hg, hp]

/-- C5: the three find-or-create operations are idempotent — a second call
with identical keys returns the same record and leaves the state exactly as
the first call left it (no save, no duplicate row). -/
theorem findOrCreate_idempotent :
    (∀ (name : String) (st : DBState),
      FindOrCreateCategory name (FindOrCreateCategory name st).2 =
        FindOrCreateCategory name st) ∧
    (∀ (c : Category) (f : Option Folder) (path : String) (st st₁ : DBState) (fo : Folder),
      FindOrCreateFolder c f path st = (Except.ok fo, st₁) →
      FindOrCreateFolder c f path st₁ = (Except.ok fo, st₁)) ∧
    (∀ (g : Folder) (path : String) (st st₁ : DBState) (rf : RealFolder),
      FindOrCreateRealFolder g path st = (Except.ok rf, st₁) →
      FindOrCreateRealFolder g path st₁ = (Except.ok rf, st₁)) := by
  refine ⟨?_, ?_, ?_⟩
  · intro name st
    rcases h : FindCategoryByName name st with _ | c
    · have hfind := findCategoryByName_append name st
        { id := nextRowID (st.categories.map (·.id)), name := name } h rfl
      simp [FindOrCreateCategory, h, hfind]
    · simp [FindOrCreateCategory, h]
  · intro c f path st st₁ fo h
    rcases hf : FindFolderByPath c path st with _ | folder
    · simp [FindOrCreateFolder, hf] at h
      obtain ⟨h1, h2⟩ := h
      have hfind := findFolderByPath_append c path st
        { id := nextRowID (st.folders.map (·.id))
          folderID := parentFolderID f
          categoryID := c.id
          depth := sepCount path
          publicPath := path
          name := baseName path } hf rfl rfl
      rw [← h1, ← h2]
      simp [FindOrCreateFolder, hfind]
    · by_cases hne : folder.folderID = parentFolderID f
      · have hcall : FindOrCreateFolder c f path st = (Except.ok folder, st) := by
          simp [FindOrCreateFolder, hf, hne]
        rw [hcall] at h
        rw [Prod.mk.injEq] at h
        obtain ⟨h1, h2⟩ := h
        injection h1 with h1
        subst h1
        subst h2
        exact hcall
      · simp [FindOrCreateFolder, hf, hne] at h
  · intro g path st st₁ rf h
    rcases hf : FindRealFolderByPath g path st with _ | folder
    · simp [FindOrCreateRealFolder, hf] at h
      obtain ⟨h1, h2⟩ := h
      have hfind := findRealFolderByPath_append g path st
        { id := nextRowID (st.realFolders.map (·.id))
          folderID := g.id
          fullPath := path } hf rfl rfl
      rw [← h1, ← h2]
      simp [FindOrCreateRealFolder, hfind]
    · by_cases hne : folder.folderID = g.id
      · have hcall : FindOrCreateRealFolder g path st = (Except.ok folder, st) := by
          simp [FindOrCreateRealFolder, hf, hne]
        rw [hcall] at h
        rw [Prod.mk.injEq] at h
        obtain ⟨h1, h2⟩ := h
        injection h1 with h1
        subst h1
        subst h2
        exact hcall
      · simp [FindOrCreateRealFolder, hf, hne] at h

/-- C5 witness: refetching a category, a folder and a real folder that are
already stored returns them unchanged without saving. -/
theorem findOrCreate_idempotent_witness :
    FindOrCreateCategory "c" (FindOrCreateCategory "c" emptyState).2 =
      FindOrCreateCategory "c" emptyState ∧
    FindOrCreateFolder exCat none "p" exFolderSt = (Except.ok exFolderP, exFolderSt) ∧
    FindOrCreateRealFolder exFolderP "/r/p" exRealSt = (Except.ok exRealF, exRealSt) :=
  ⟨findOrCreate_idempotent.1 "c" emptyState,
   findOrCreate_idempotent.2.1 exCat none "p" exFolderSt exFolderSt exFolderP (by decide),
   findOrCreate_idempotent.2.2 exFolderP "/r/p" exRealSt exRealSt exRealF (by decide)⟩

end DB

namespace DB

/-- C9 (amended): the code stores "no parent" as the sentinel parent id 0, so
find-or-create with no parent object and with a parent object whose id is 0
compute the same stored key and behave identically; the two keys differ
exactly when the supplied parent has a nonzero id.  For real folders the key
is likewise only the supplied folder's id. -/
theorem folderParent_sentinel :
    (∀ (c : Category) (path : String) (st : DBState) (f : Folder), f.id = 0 →
      FindOrCreateFolder c (some f) path st = FindOrCreateFolder c none path st) ∧
    (∀ (f : Folder), f.id ≠ 0 → parentFolderID (some f) ≠ parentFolderID none) ∧
    (∀ (g g' : Folder) (path : String) (st : DBState), g.id = g'.id →
      FindOrCreateRealFolder g path st = FindOrCreateRealFolder g' path st) := by
  refine ⟨?_, ?_, ?_⟩
  · intro c path st f h
    simp [FindOrCreateFolder, parentFolderID, h]
  · intro f h
    simpa [parentFolderID] using h
  · intro g g' path st h
    simp [FindOrCreateRealFolder, FindRealFolderByPath, h]

/-- C9 counterexample: with folder `p` stored under no parent, a call passing
a parent object whose id is 0 finds and returns the very same record with no
error — the two parent keys are not distinct in the code. -/
theorem folderParent_sentinel_cx :
    exZeroFolder.id = 0 ∧
    FindOrCreateFolder exCat (some exZeroFolder) "p" exFolderSt =
      (Except.ok exFolderP, exFolderSt) ∧
    FindOrCreateFolder exCat none "p" exFolderSt = (Except.ok exFolderP, exFolderSt) := by
  decide

/-- C9 witness: the id-0 parent call coincides with the no-parent call, while
a parent with nonzero id yields a different key. -/
theorem folderParent_sentinel_witness :
    FindOrCreateFolder exCat (some exZeroFolder) "p" exFolderSt =
      FindOrCreateFolder exCat none "p" exFolderSt ∧
    parentFolderID (some exParent) ≠ parentFolderID none :=
  ⟨folderParent_sentinel.1 exCat "p" exFolderSt exZeroFolder rfl,
   folderParent_sentinel.2.1 exParent (by decide)⟩

end DB

namespace DB

/-! Order facts about the sort comparisons of `GetFilesByIDs`. -/

theorem charsLess_asymm : ∀ (a b : List Char), charsLess a b = true → charsLess b a = false
  | [], [] => by simp [charsLess]
  | [], _ :: _ => by simp [charsLess]
  | _ :: _, [] => by simp [charsLess]
  | x :: xs, y :: ys => by
    simp only [charsLess]
    intro h
    by_cases hxy : x < y
    · rw [if_neg (lt_asymm hxy), if_pos hxy]
    · by_cases hyx : y < x
      · rw [if_neg hxy, if_pos hyx] at h
        exact absurd h (by simp)
      · rw [if_neg hxy, if_neg hyx] at h
        rw [if_neg hyx, if_neg hxy]
        exact charsLess_asymm xs ys h

theorem charsLess_conn : ∀ (a b : List Char),
    charsLess a b = false → charsLess b a = false → a = b
  | [], [] => by simp
  | [], _ :: _ => by simp [charsLess]
  | _ :: _, [] => by simp [charsLess]
  | x :: xs, y :: ys => by
    simp only [charsLess]
    intro h1 h2
    by_cases hxy : x < y
    · simp [hxy] at h1
    · by_cases hyx : y < x
      · simp [hxy, hyx] at h2
      · have hxy' : x = y := le_antisymm (not_lt.mp hyx) (not_lt.mp hxy)
        subst hxy'
        simp [hxy] at h1 h2
        rw [charsLess_conn xs ys h1 h2]

theorem charsLess_trans : ∀ (a b c : List Char),
    charsLess a b = true → charsLess b c = true → charsLess a c = true
  | [], b, [] => by
    intro h1 h2
    cases b <;> simp [charsLess] at h2
  | [], _, _ :: _ => by simp [charsLess]
  | x :: xs, [], c => by simp [charsLess]
  | x :: xs, y :: ys, [] => by simp [charsLess]
  | x :: xs, y :: ys, z :: zs => by
    simp only [charsLess]
    intro h1 h2
    by_cases hxy : x < y
    · by_cases hyz : y < z
      · rw [if_pos (lt_trans hxy hyz)]
      · by_cases hzy : z < y
        · rw [if_neg hyz, if_pos hzy] at h2
          exact absurd h2 (by simp)
        · have : y = z := le_antisymm (not_lt.mp hzy) (not_lt.mp hyz)
          subst this
          rw [if_pos hxy]
    · by_cases hyx : y < x
      · rw [if_neg hxy, if_pos hyx] at h1
        exact absurd h1 (by simp)
      · have hxy' : x = y := le_antisymm (not_lt.mp hyx) (not_lt.mp hxy)
        subst hxy'
        rw [if_neg hxy, if_neg hyx] at h1
        by_cases hyz : x < z
        · rw [if_pos hyz]
        · by_cases hzy : z < x
          · rw [if_neg hyz, if_pos hzy] at h2
            exact absurd h2 (by simp)
          · rw [if_neg hyz, if_neg hzy] at h2 ⊢
            exact charsLess_trans xs ys zs h1 h2

/-- From the two one-sided negations, a `charsLess` chain on the right. -/
theorem charsLess_neg_trans (a b c : List Char) (h1 : charsLess b a = false)
    (h2 : charsLess c b = false) : charsLess c a = false := by
  by_contra h3
  rw [Bool.not_eq_false] at h3
  by_cases hab : charsLess a b = true
  · exact absurd (charsLess_trans c a b h3 hab) (by simp [h2])
  · have : a = b := charsLess_conn a b (by simpa using hab) h1
    subst this
    exact absurd h3 (by simp [h2])

theorem fileLess_false_iff (a b : File) : fileLess a b = false ↔
    (b.depth < a.depth ∨ (a.depth = b.depth ∧
      charsLess (lowerChars a.publicPath) (lowerChars b.publicPath) = false)) := by
  by_cases h : a.depth = b.depth
  · simp [fileLess, h]
  · have hne : (a.depth != b.depth) = true := by simpa using h
    simp [fileLess, hne, h]
    omega

theorem fileLE_iff (a b : File) : fileLE a b = true ↔
    (a.depth < b.depth ∨ (a.depth = b.depth ∧
      charsLess (lowerChars b.publicPath) (lowerChars a.publicPath) = false)) := by
  rw [fileLE, Bool.not_eq_true', fileLess_false_iff]
  constructor
  · rintro (h | ⟨h1, h2⟩)
    · exact Or.inl h
    · exact Or.inr ⟨h1.symm, h2⟩
  · rintro (h | ⟨h1, h2⟩)
    · exact Or.inl h
    · exact Or.inr ⟨h1.symm, h2⟩

theorem fileOrder_total (a b : File) : fileOrder a b ∨ fileOrder b a := by
  unfold fileOrder
  rw [fileLE_iff, fileLE_iff]
  rcases Nat.lt_trichotomy a.depth b.depth with h | h | h
  · exact Or.inl (Or.inl h)
  · by_cases hc : charsLess (lowerChars b.publicPath) (lowerChars a.publicPath) = false
    · exact Or.inl (Or.inr ⟨h, hc⟩)
    · rw [Bool.not_eq_false] at hc
      exact Or.inr (Or.inr ⟨h.symm, charsLess_asymm _ _ hc⟩)
  · exact Or.inr (Or.inl h)

theorem fileOrder_trans (a b c : File) (h1 : fileOrder a b) (h2 : fileOrder b c) :
    fileOrder a c := by
  unfold fileOrder at h1 h2 ⊢
  rw [fileLE_iff] at h1 h2 ⊢
  rcases h1 with h1 | ⟨h1d, h1c⟩
  · rcases h2 with h2 | ⟨h2d, h2c⟩
    · exact Or.inl (Nat.lt_trans h1 h2)
    · exact Or.inl (h2d ▸ h1)
  · rcases h2 with h2 | ⟨h2d, h2c⟩
    · exact Or.inl (h1d ▸ h2)
    · exact Or.inr ⟨h1d.trans h2d, charsLess_neg_trans _ _ _ h1c h2c⟩

/-- Mutually `fileLE`-comparable files share their sort key. -/
theorem fileOrder_antisymm_key (a b : File) (h1 : fileOrder a b) (h2 : fileOrder b a) :
    a.depth = b.depth ∧ lowerChars a.publicPath = lowerChars b.publicPath := by
  unfold fileOrder at h1 h2
  rw [fileLE_iff] at h1 h2
  rcases h1 with h1 | ⟨h1d, h1c⟩ <;> rcases h2 with h2 | ⟨h2d, h2c⟩
  · omega
  · omega
  · omega
  · exact ⟨h1d, charsLess_conn _ _ h2c h1c⟩

end DB

namespace DB

/-- Filtering one list by two disjoint predicates and concatenating is a
permutation of filtering by their disjunction. -/
theorem filter_append_perm {α : Type} (l : List α) (p q : α → Bool)
    (h : ∀ a ∈ l, ¬(p a = true ∧ q a = true)) :
    (l.filter p ++ l.filter q).Perm (l.filter (fun a => p a || q a)) := by
  induction l with
  | nil => simp
  | cons x xs ih =>
    have ih' := ih (fun a ha => h a (List.mem_cons_of_mem x ha))
    by_cases hp : p x = true
    · have hq : q x = false := by
        rcases Bool.eq_false_or_eq_true (q x) with h' | h'
        · exact absurd ⟨hp, h'⟩ (h x (List.mem_cons_self x xs))
        · exact h'
      simp only [List.filter_cons, hp, hq, Bool.or_self, if_true, if_false]
      simpa [hp, hq] using (ih'.cons x)
    · by_cases hq : q x = true
      · have hp' : p x = false := by simpa using hp
        simp only [List.filter_cons, hp', hq]
        refine List.Perm.trans List.perm_middle ?_
        simpa [hp', hq] using (ih'.cons x)
      · have hp' : p x = false := by simpa using hp
        have hq' : q x = false := by simpa using hq
        simpa [hp', hq'] using ih'

/-- The chunked fetch is a permutation of one filter over the whole id list,
for duplicate-free ids. -/
theorem fetchFileChunks_perm (st : DBState) :
    ∀ (fuel : Nat) (acc : List File) (ids : List Nat), ids.Nodup →
      (fetchFileChunks st fuel acc ids).Perm
        (acc ++ st.files.filter (fun f => ids.contains f.id)) := by
  intro fuel
  induction fuel with
  | zero =>
    intro acc ids _
    by_cases h : ids.length > 0
    · simp only [fetchFileChunks, h, if_true]
      exact List.Perm.refl _
    · have : ids = [] := by
        cases ids
        · rfl
        · simp at h
      subst this
      simp [fetchFileChunks]
  | succ fuel ih =>
    intro acc ids hnd
    by_cases h : ids.length > 1000
    · have hnd' : (ids.drop 1000).Nodup := (List.drop_sublist 1000 ids).nodup hnd
      have hdisj : ∀ (a : File), a ∈ st.files →
          ¬((ids.take 1000).contains a.id = true ∧ (ids.drop 1000).contains a.id = true) := by
        intro a _ ⟨h1, h2⟩
        have hmem1 : a.id ∈ ids.take 1000 := by simpa using h1
        have hmem2 : a.id ∈ ids.drop 1000 := by simpa using h2
        have hnd2 : (ids.take 1000 ++ ids.drop 1000).Nodup := by
          rw [List.take_append_drop]
          exact hnd
        exact (List.disjoint_of_nodup_append hnd2) hmem1 hmem2
      have hsplit : (st.files.filter (fun f => (ids.take 1000).contains f.id) ++
            st.files.filter (fun f => (ids.drop 1000).contains f.id)).Perm
          (st.files.filter (fun f => ids.contains f.id)) := by
        refine List.Perm.trans (filter_append_perm st.files _ _ hdisj) ?_
        have hext : ∀ f ∈ st.files, ((ids.take 1000).contains f.id ||
            (ids.drop 1000).contains f.id) = ids.contains f.id := by
          intro f _
          have hsplitmem : f.id ∈ ids ↔ f.id ∈ ids.take 1000 ∨ f.id ∈ ids.drop 1000 := by
            rw [← List.mem_append, List.take_append_drop]
          by_cases hm : f.id ∈ ids
          · rcases hsplitmem.mp hm with h' | h' <;>
              simp [List.contains_eq_any_beq, h', hm]
          · have h1 : f.id ∉ ids.take 1000 := fun h' => hm (hsplitmem.mpr (Or.inl h'))
            have h2 : f.id ∉ ids.drop 1000 := fun h' => hm (hsplitmem.mpr (Or.inr h'))
            simp [List.contains_eq_any_beq, h1, h2, hm]
        rw [List.filter_congr hext]
      simp only [fetchFileChunks, h, if_true]
      refine List.Perm.trans (ih _ _ hnd') ?_
      rw [appendFiles, List.append_assoc]
      exact List.Perm.append_left acc hsplit
    · by_cases h0 : ids.length > 0
      · simp only [fetchFileChunks, h, h0, if_true, if_false]
        exact List.Perm.refl _
      · have : ids = [] := by
          cases ids
          · rfl
          · simp at h0
        subst this
        simp [fetchFileChunks]

end DB

namespace DB

/-- Two sorted permutations of each other whose elements have pairwise
distinct sort keys are equal. -/
theorem sorted_perm_distinct_keys_eq : ∀ {l₁ l₂ : List File}, l₁.Perm l₂ →
    List.Pairwise fileOrder l₁ → List.Pairwise fileOrder l₂ →
    List.Pairwise (fun a b => ¬(a.depth = b.depth ∧
      lowerChars a.publicPath = lowerChars b.publicPath)) l₁ →
    l₁ = l₂ := by
  intro l₁
  induction l₁ with
  | nil =>
    intro l₂ hp _ _ _
    exact (hp.nil_eq).symm |>.symm ▸ rfl
  | cons a t₁ ih =>
    intro l₂ hp hs₁ hs₂ hk
    rcases l₂ with _ | ⟨b, t₂⟩
    · exact absurd hp.symm.nil_eq (by simp)
    by_cases hab : a = b
    · subst hab
      have ht : t₁.Perm t₂ := hp.cons_inv
      rw [ih ht (List.pairwise_cons.mp hs₁).2 (List.pairwise_cons.mp hs₂).2
        (List.pairwise_cons.mp hk).2]
    · have hamem : a ∈ b :: t₂ := hp.subset (List.mem_cons_self a t₁)
      have hat₂ : a ∈ t₂ := by
        rcases List.mem_cons.mp hamem with h' | h'
        · exact absurd h' hab
        · exact h'
      have hbmem : b ∈ a :: t₁ := hp.symm.subset (List.mem_cons_self b t₂)
      have hbt₁ : b ∈ t₁ := by
        rcases List.mem_cons.mp hbmem with h' | h'
        · exact absurd h'.symm hab
        · exact h'
      have h1 : fileOrder a b := (List.pairwise_cons.mp hs₁).1 b hbt₁
      have h2 : fileOrder b a := (List.pairwise_cons.mp hs₂).1 a hat₂
      exact absurd (fileOrder_antisymm_key a b h1 h2)
        ((List.pairwise_cons.mp hk).1 b hbt₁)

/-- C6 (amended): for duplicate-free ids, `GetFilesByIDs` returns exactly the
stored rows whose ids were requested, each exactly once, sorted by depth and
then by lowercased public path; and whenever no two returned rows tie on that
(depth, lowercased path) sort key, the output is independent of the order of
the id list.  (With tied keys the order can depend on how the input order
chunks, see the counterexample.) -/
theorem getFilesByIDs_spec (st : DBState) (ids : List Nat) (h : ids.Nodup) :
    (GetFilesByIDs st ids).Perm (st.files.filter (fun f => ids.contains f.id)) ∧
    List.Pairwise fileOrder (GetFilesByIDs st ids) ∧
    (∀ ids₂, ids₂.Nodup → ids₂.Perm ids →
      List.Pairwise (fun a b => ¬(a.depth = b.depth ∧
        lowerChars a.publicPath = lowerChars b.publicPath))
        (st.files.filter (fun f => ids.contains f.id)) →
      GetFilesByIDs st ids₂ = GetFilesByIDs st ids) := by
  have hperm : ∀ (ids' : List Nat), ids'.Nodup →
      (GetFilesByIDs st ids').Perm (st.files.filter (fun f => ids'.contains f.id)) := by
    intro ids' h'
    refine List.Perm.trans (List.perm_insertionSort fileOrder _) ?_
    simpa using fetchFileChunks_perm st ids'.length [] ids' h'
  have hsorted : ∀ (ids' : List Nat), List.Pairwise fileOrder (GetFilesByIDs st ids') :=
    fun ids' => @List.sorted_insertionSort _ fileOrder _
      ⟨fileOrder_total⟩ ⟨fun a b c => fileOrder_trans a b c⟩ _
  refine ⟨hperm ids h, hsorted ids, ?_⟩
  intro ids₂ h₂ hp₂ hk
  have hfeq : st.files.filter (fun f => ids₂.contains f.id) =
      st.files.filter (fun f => ids.contains f.id) := by
    refine List.filter_congr ?_
    intro f _
    by_cases hm : f.id ∈ ids
    · simp [List.contains_eq_any_beq, hm, hp₂.mem_iff.mpr hm]
    · have hm₂ : f.id ∉ ids₂ := fun h' => hm (hp₂.mem_iff.mp h')
      simp [List.contains_eq_any_beq, hm, hm₂]
  have hpp : (GetFilesByIDs st ids₂).Perm (GetFilesByIDs st ids) :=
    List.Perm.trans (hfeq ▸ hperm ids₂ h₂) (hperm ids h).symm
  have hsym : ∀ {x y : File}, ¬(x.depth = y.depth ∧
      lowerChars x.publicPath = lowerChars y.publicPath) →
      ¬(y.depth = x.depth ∧ lowerChars y.publicPath = lowerChars x.publicPath) :=
    fun hxy ⟨h1, h2⟩ => hxy ⟨h1.symm, h2.symm⟩
  have hk₂ : List.Pairwise (fun a b => ¬(a.depth = b.depth ∧
      lowerChars a.publicPath = lowerChars b.publicPath)) (GetFilesByIDs st ids₂) :=
    (List.Perm.pairwise_iff hsym (hfeq ▸ hperm ids₂ h₂)).mpr hk
  exact sorted_perm_distinct_keys_eq hpp (hsorted ids₂) (hsorted ids) hk₂

end DB

namespace DB

set_option maxRecDepth 8000 in
/-- C6 counterexample: 1001 distinct ids; the two matching stored rows tie on
the (depth, lowercased path) sort key and are fetched by different chunks, so
reversing the id list (a permutation) changes the returned order. -/
theorem getFilesByIDs_order_cx :
    exIds.Nodup ∧ exIds.reverse.Perm exIds ∧
    GetFilesByIDs exFilesSt exIds ≠ GetFilesByIDs exFilesSt exIds.reverse := by
  refine ⟨?_, List.reverse_perm exIds, by decide⟩
  unfold exIds
  refine List.Nodup.append ?_ (by simp) ?_
  · refine List.nodup_cons.mpr ⟨?_, ?_⟩
    · simp only [List.mem_map, List.mem_range]
      rintro ⟨r, hr, hr'⟩
      omega
    · exact List.Nodup.map (fun a b hab => by omega) (List.nodup_range 999)
  · intro a ha hb
    simp only [List.mem_singleton] at hb
    subst hb
    simp only [List.mem_cons, List.mem_map, List.mem_range] at ha
    rcases ha with h' | ⟨r, hr, hr'⟩
    · exact absurd h' (by decide)
    · omega

/-- C6 witness: two distinct ids fetching both stored rows. -/
theorem getFilesByIDs_spec_witness :
    (GetFilesByIDs exFilesSt [2, 1]).Perm
      (exFilesSt.files.filter (fun f => [2, 1].contains f.id)) ∧
    List.Pairwise fileOrder (GetFilesByIDs exFilesSt [2, 1]) ∧
    (∀ ids₂, ids₂.Nodup → ids₂.Perm [2, 1] →
      List.Pairwise (fun a b => ¬(a.depth = b.depth ∧
        lowerChars a.publicPath = lowerChars b.publicPath))
        (exFilesSt.files.filter (fun f => [2, 1].contains f.id)) →
      GetFilesByIDs exFilesSt ids₂ = GetFilesByIDs exFilesSt [2, 1]) :=
  getFilesByIDs_spec exFilesSt [2, 1] (by decide)

set_option maxRecDepth 8000 in
/-- C10: GetFilesByIDs does not deduplicate its input: the id 1 repeated 1002
times (its occurrences at positions 0 and 1001 are more than 1000 apart, so
they fall into different query chunks) returns the single stored row with
that id twice. -/
theorem getFilesByIDs_dup :
    (List.replicate 1002 1).length = 1002 ∧
    (List.replicate 1002 1)[0]? = some 1 ∧
    (List.replicate 1002 1)[1001]? = some 1 ∧
    exFilesSt.files.count exFileA = 1 ∧
    GetFilesByIDs exFilesSt (List.replicate 1002 1) = [exFileA, exFileA] := by
  refine ⟨by decide, by decide, by decide, by decide, by decide⟩

/-- C8 (spec-modelled): the total match count returned by the searches does
not depend on the limit; only the returned slice is capped, and a smaller
limit yields a prefix of a larger limit's slice. -/
theorem search_count_limit (c : Category) (folder : Option Folder) (term : String)
    (limit₁ limit₂ : Nat) (st : DBState) :
    (SearchFiles c folder term limit₁ st).2 = (SearchFiles c folder term limit₂ st).2 ∧
    (SearchFolders c folder term limit₁ st).2 = (SearchFolders c folder term limit₂ st).2 ∧
    (SearchFiles c folder term limit₁ st).1.length ≤ limit₁ ∧
    (SearchFolders c folder term limit₁ st).1.length ≤ limit₁ ∧
    (limit₁ ≤ limit₂ → (SearchFiles c folder term limit₁ st).1 =
      ((SearchFiles c folder term limit₂ st).1).take limit₁) := by
  refine ⟨rfl, rfl, List.length_take_le _ _, List.length_take_le _ _, ?_⟩
  intro h
  show List.take limit₁ _ = List.take limit₁ (List.take limit₂ _)
  rw [List.take_take, Nat.min_eq_left h]

/-- C8 witness: limits 1 and 1000 over the two stored files. -/
theorem search_count_limit_witness :
    (SearchFiles exCat none "x" 1 exFilesSt).2 = (SearchFiles exCat none "x" 1000 exFilesSt).2 ∧
    (SearchFolders exCat none "x" 1 exFilesSt).2 =
      (SearchFolders exCat none "x" 1000 exFilesSt).2 ∧
    (SearchFiles exCat none "x" 1 exFilesSt).1.length ≤ 1 ∧
    (SearchFolders exCat none "x" 1 exFilesSt).1.length ≤ 1 ∧
    (SearchFiles exCat none "x" 1 exFilesSt).1 =
      ((SearchFiles exCat none "x" 1000 exFilesSt).1).take 1 :=
  ⟨(search_count_limit exCat none "x" 1 1000 exFilesSt).1,
   (search_count_limit exCat none "x" 1 1000 exFilesSt).2.1,
   (search_count_limit exCat none "x" 1 1000 exFilesSt).2.2.1,
   (search_count_limit exCat none "x" 1 1000 exFilesSt).2.2.2.1,
   (search_count_limit exCat none "x" 1 1000 exFilesSt).2.2.2.2 (by decide)⟩

end DB
